import Mathlib

/-!
Verification development for the invoice-ocr-service request pipeline.

The Go sources under api/handler.go, internal/ai/extractor.go,
internal/ai/providers.go and internal/models are shallowly embedded below:
pure helpers become Lean functions on `List Char` / `String` / `List Nat`
(byte values), the HTTP handler and processing pipeline become explicit
state-passing functions that also record a trace of collaborator
invocations, and the external collaborators (ImageMagick preprocessing,
Tesseract, the three AI HTTP backends) are oracle functions supplied in a
`PipelineEnv`.
-/

set_option maxRecDepth 200000

deriving instance DecidableEq for Except

namespace InvoiceOCR

/-- Byte strings are lists of byte values. -/
abbrev Bytes := List Nat

/-! ## Go standard-library string helpers -/

/-- unicode.IsSpace, as used by strings.TrimSpace. -/
def isGoSpace (c : Char) : Bool :=
  c = ' ' || c = '\t' || c = '\n' || c = Char.ofNat 0x0B || c = Char.ofNat 0x0C ||
  c = '\r' || c = Char.ofNat 0x85 || c = Char.ofNat 0xA0 || c = Char.ofNat 0x1680 ||
  (0x2000 ≤ c.toNat && c.toNat ≤ 0x200A) || c = Char.ofNat 0x2028 ||
  c = Char.ofNat 0x2029 || c = Char.ofNat 0x202F || c = Char.ofNat 0x205F ||
  c = Char.ofNat 0x3000

/-- Leading-whitespace trim (half of strings.TrimSpace). -/
def trimLeft (s : List Char) : List Char := s.dropWhile isGoSpace

/-- Trailing-whitespace trim (the other half of strings.TrimSpace). -/
def trimRight (s : List Char) : List Char := (s.reverse.dropWhile isGoSpace).reverse

/-- strings.TrimSpace. -/
def goTrimSpace (s : List Char) : List Char := trimRight (trimLeft s)

/-- Fuel-indexed core of strings.ReplaceAll(s, pat, ""): removes the
left-to-right non-overlapping occurrences of `pat`.  The fuel is only a
structural-recursion device; `removeAll` instantiates it with the length
of the string, which is always sufficient. -/
def removeAllFuel (pat : List Char) : Nat → List Char → List Char
  | 0, s => s
  | _ + 1, [] => []
  | n + 1, c :: rest =>
    if pat <+: (c :: rest) ∧ pat ≠ [] then
      removeAllFuel pat n ((c :: rest).drop pat.length)
    else
      c :: removeAllFuel pat n rest

/-- strings.ReplaceAll(s, pat, "") for a non-empty pattern. -/
def removeAll (pat s : List Char) : List Char := removeAllFuel pat s.length s

/-! ## base64 (encoding/base64 StdEncoding) -/

/-- The standard base64 alphabet. -/
def base64Alphabet : List Char :=
  "ABCDEFGHIJKLMNOPQRSTUVWXYZabcdefghijklmnopqrstuvwxyz0123456789+/".data

def base64Digit (n : Nat) : Char := base64Alphabet.getD n 'A'

/-- StdEncoding.EncodeToString on a byte list: 3 bytes become 4 alphabet
characters, with '=' padding for a 1- or 2-byte tail. -/
def base64Encode : Bytes → List Char
  | [] => []
  | [a] => [base64Digit (a / 4), base64Digit (a % 4 * 16), '=', '=']
  | [a, b] => [base64Digit (a / 4), base64Digit (a % 4 * 16 + b / 16),
               base64Digit (b % 16 * 4), '=']
  | a :: b :: c :: rest =>
      base64Digit (a / 4) :: base64Digit (a % 4 * 16 + b / 16) ::
      base64Digit (b % 16 * 4 + c / 64) :: base64Digit (c % 64) ::
      base64Encode rest

def base64EncodeString (b : Bytes) : String := ⟨base64Encode b⟩

/-- The UTF-8 encoding of one character. -/
def utf8Bytes (c : Char) : List Nat :=
  let n := c.toNat
  if n < 0x80 then [n]
  else if n < 0x800 then [0xC0 + n / 64, 0x80 + n % 64]
  else if n < 0x10000 then
    [0xE0 + n / 4096, 0x80 + n / 64 % 64, 0x80 + n % 64]
  else
    [0xF0 + n / 262144, 0x80 + n / 4096 % 64, 0x80 + n / 64 % 64, 0x80 + n % 64]

/-- The bytes of a Go string (Go strings are UTF-8 byte strings). -/
def stringBytes (s : String) : Bytes := (s.data.map utf8Bytes).flatten

/-- decodeBase64 from internal/ai/providers.go.  The Go function fills a
len(s)-byte buffer from strings.NewReader(s) with io.ReadFull — which
merely copies the string's own bytes and succeeds — and its
encoding/base64 fallback is an unimplemented stub, so the function always
returns the base64 TEXT bytes, never the decoded binary. -/
def decodeBase64 (s : String) : Except String Bytes := .ok (stringBytes s)

/-! ## detectMIMEType (internal/ai/providers.go) -/

def detectMIMEType (data : Bytes) : String :=
  if data.length < 4 then "application/octet-stream"
  else if data.getD 0 0 = 0xFF ∧ data.getD 1 0 = 0xD8 then "image/jpeg"
  else if data.getD 0 0 = 0x89 ∧ data.getD 1 0 = 0x50 ∧ data.getD 2 0 = 0x4E ∧
          data.getD 3 0 = 0x47 then "image/png"
  else if data.getD 0 0 = 0x47 ∧ data.getD 1 0 = 0x49 ∧ data.getD 2 0 = 0x46 then
    "image/gif"
  else if 12 ≤ data.length ∧ data.take 4 = [0x52, 0x49, 0x46, 0x46] ∧
          (data.drop 8).take 4 = [0x57, 0x45, 0x42, 0x50] then "image/webp"
  else "image/jpeg"

/-! ## time.Parse for the three layouts tried by the extractor -/

/-- The fields of a Go time.Time that the pipeline observes.  `offsetMin`
is the zone offset in minutes (0 for UTC). -/
structure GoTime where
  year : Nat
  month : Nat
  day : Nat
  hour : Nat
  minute : Nat
  second : Nat
  offsetMin : Int
deriving DecidableEq

/-- The zero time.Time: January 1, year 1, 00:00:00 UTC. -/
def GoTime.zero : GoTime := ⟨1, 1, 1, 0, 0, 0, 0⟩

def digitVal (c : Char) : Nat := c.toNat - 48

/-- Read exactly two decimal digits (a fixed-width Go layout element). -/
def num2 : List Char → Option (Nat × List Char)
  | a :: b :: rest =>
    if a.isDigit && b.isDigit then some (digitVal a * 10 + digitVal b, rest) else none
  | _ => none

/-- Read exactly four decimal digits (the Go "2006" year element). -/
def num4 : List Char → Option (Nat × List Char)
  | a :: b :: c :: d :: rest =>
    if a.isDigit && b.isDigit && c.isDigit && d.isDigit then
      some (digitVal a * 1000 + digitVal b * 100 + digitVal c * 10 + digitVal d, rest)
    else none
  | _ => none

def expectChar (c : Char) : List Char → Option (List Char)
  | x :: rest => if x = c then some rest else none
  | [] => none

def isLeapYear (y : Nat) : Bool := y % 4 = 0 && (y % 100 ≠ 0 || y % 400 = 0)

/-- days of the month, as validated by Go's time.Parse. -/
def daysInMonth (y m : Nat) : Nat :=
  if m = 2 then (if isLeapYear y then 29 else 28)
  else if m = 4 ∨ m = 6 ∨ m = 9 ∨ m = 11 then 30
  else 31

def validYMD (y m d : Nat) : Bool :=
  decide (1 ≤ m) && decide (m ≤ 12) && decide (1 ≤ d) && decide (d ≤ daysInMonth y m)

/-- The YYYY-MM-DD part shared by the "2006-01-02" and RFC3339 layouts. -/
def parseYMD (s : List Char) : Option ((Nat × Nat × Nat) × List Char) := do
  let (y, r1) ← num4 s
  let r2 ← expectChar '-' r1
  let (m, r3) ← num2 r2
  let r4 ← expectChar '-' r3
  let (d, r5) ← num2 r4
  some ((y, m, d), r5)

/-- time.Parse("2006-01-02", s): an exact YYYY-MM-DD calendar date at
midnight UTC, with Go's month/day range validation. -/
def parseISODate (s : String) : Option GoTime :=
  match parseYMD s.data with
  | some ((y, m, d), rest) =>
    if rest = [] ∧ validYMD y m d then some ⟨y, m, d, 0, 0, 0, 0⟩ else none
  | none => none

/-- time.Parse("02/01/2006", s): an exact DD/MM/YYYY date at midnight UTC. -/
def parseDMYDate (s : String) : Option GoTime := do
  let (d, r1) ← num2 s.data
  let r2 ← expectChar '/' r1
  let (m, r3) ← num2 r2
  let r4 ← expectChar '/' r3
  let (y, r5) ← num4 r4
  if r5 = [] ∧ validYMD y m d then some ⟨y, m, d, 0, 0, 0, 0⟩ else none

/-- The timezone tail of an RFC3339 timestamp: "Z" (uppercase only), or a
±hh:mm numeric offset in minutes (Go's generic layout parse puts no range
check on the offset digits). -/
def parseRFC3339Zone : List Char → Option Int
  | ['Z'] => some 0
  | sign :: rest => do
    if sign = '+' ∨ sign = '-' then
      let (h, r1) ← num2 rest
      let r2 ← expectChar ':' r1
      let (m, r3) ← num2 r2
      if r3 = [] then
        let total : Int := h * 60 + m
        some (if sign = '-' then -total else total)
      else none
    else none
  | [] => none

/-- The HH:MM:SS clock part of an RFC3339 timestamp. -/
def parseHMS (s : List Char) : Option ((Nat × Nat × Nat) × List Char) := do
  let (h, r1) ← num2 s
  let r2 ← expectChar ':' r1
  let (m, r3) ← num2 r2
  let r4 ← expectChar ':' r3
  let (sec, r5) ← num2 r4
  some ((h, m, sec), r5)

/-- An optional fractional second after the clock ('.' or ',' separated,
as Go's Parse accepts). -/
def skipFraction (s : List Char) : List Char :=
  match s with
  | sep :: c :: rest =>
    if (sep = '.' ∨ sep = ',') ∧ c.isDigit then (c :: rest).dropWhile Char.isDigit
    else s
  | _ => s

/-- time.Parse("2006-01-02T15:04:05Z07:00", s): Go's RFC3339 parser —
strict date and clock fields with range checks, an optional fractional
second, and a "Z" or ±hh:mm zone. -/
def parseRFC3339Date (s : String) : Option GoTime := do
  let ((y, mo, d), r5) ← parseYMD s.data
  let r6 ← expectChar 'T' r5
  let ((h, mi, sec), r11) ← parseHMS r6
  let off ← parseRFC3339Zone (skipFraction r11)
  if validYMD y mo d ∧ h ≤ 23 ∧ mi ≤ 59 ∧ sec ≤ 59 then
    some ⟨y, mo, d, h, mi, sec, off⟩
  else none

/-! ## shopspring/decimal -/

/-- A shopspring decimal: the represented number is value * 10 ^ exp. -/
structure GoDecimal where
  value : Int
  exp : Int
deriving DecidableEq

/-- The zero value of decimal.Decimal. -/
def GoDecimal.zero : GoDecimal := ⟨0, 0⟩

/-- strconv.ParseInt base 10: an optional sign followed by at least one
digit (big.Int SetString accepts the same strings for the long case). -/
def goParseInt (s : List Char) : Option Int :=
  let (neg, digits) :=
    match s with
    | '-' :: rest => (true, rest)
    | '+' :: rest => (false, rest)
    | _ => (false, s)
  if digits ≠ [] ∧ digits.all Char.isDigit then
    let n := digits.foldl (fun acc c => acc * 10 + digitVal c) 0
    some (if neg then -(n : Int) else (n : Int))
  else none

/-- decimal.NewFromString: splits off a trailing E-exponent, removes the
single permitted decimal point while lowering the exponent by the length
of the fraction, and integer-parses what remains. -/
def newFromString (s : String) : Option GoDecimal :=
  let cs := s.data
  let eIdx := cs.findIdx (fun c => c = 'e' ∨ c = 'E')
  let (mantissa, exp0) : List Char × Option Int :=
    if eIdx < cs.length then
      (cs.take eIdx, goParseInt (cs.drop (eIdx + 1)))
    else (cs, some 0)
  match exp0 with
  | none => none
  | some e0 =>
    if (mantissa.filter (fun c => c = '.')).length ≥ 2 then none
    else
      let pIdx := mantissa.findIdx (fun c => c = '.')
      let (intPart, fracLen) : List Char × Nat :=
        if pIdx < mantissa.length then
          (mantissa.take pIdx ++ mantissa.drop (pIdx + 1),
           mantissa.length - (pIdx + 1))
        else (mantissa, 0)
      match goParseInt intPart with
      | none => none
      | some v => some ⟨v, e0 - fracLen⟩

/-! ## encoding/json: the fragment exercised by parseResponse -/

/-- A parsed JSON value; numbers keep their literal text (json.Number). -/
inductive JValue where
  | null
  | bool (b : Bool)
  | num (lit : String)
  | str (s : String)
  | arr (elems : List JValue)
  | obj (members : List (String × JValue))

def jsonSkipWs (s : List Char) : List Char :=
  s.dropWhile (fun c => c = ' ' || c = '\t' || c = '\n' || c = '\r')

def hexVal (c : Char) : Option Nat :=
  if c.isDigit then some (c.toNat - 48)
  else if 'a' ≤ c ∧ c ≤ 'f' then some (c.toNat - 87)
  else if 'A' ≤ c ∧ c ≤ 'F' then some (c.toNat - 55)
  else none

/-- The body of a JSON string, after the opening quote: returns the
decoded content and the input following the closing quote. -/
def parseStringBody : List Char → Option (List Char × List Char)
  | [] => none
  | '"' :: rest => some ([], rest)
  | '\\' :: 'u' :: a :: b :: c :: d :: rest2 =>
    match hexVal a, hexVal b, hexVal c, hexVal d, parseStringBody rest2 with
    | some ha, some hb, some hc, some hd, some (content, r) =>
        some (Char.ofNat (ha * 4096 + hb * 256 + hc * 16 + hd) :: content, r)
    | _, _, _, _, _ => none
  | '\\' :: e :: rest2 =>
    let c? : Option Char :=
      match e with
      | '"' => some '"'
      | '\\' => some '\\'
      | '/' => some '/'
      | 'b' => some (Char.ofNat 8)
      | 'f' => some (Char.ofNat 12)
      | 'n' => some '\n'
      | 'r' => some '\r'
      | 't' => some '\t'
      | _ => none
    match c?, parseStringBody rest2 with
    | some c, some (content, r) => some (c :: content, r)
    | _, _ => none
  | '\\' :: [] => none
  | c :: rest =>
    if c.toNat < 0x20 then none
    else
      match parseStringBody rest with
      | some (content, r) => some (c :: content, r)
      | none => none

/-- A JSON number literal per RFC 8259 (also enforcing Go's no-leading-zero
rule): returns the literal text and the remaining input. -/
def parseNumberLit (s : List Char) : Option (List Char × List Char) := do
  let (sign, s1) : List Char × List Char :=
    match s with
    | '-' :: r => (['-'], r)
    | _ => ([], s)
  let (ip, s2) ←
    match s1 with
    | '0' :: r => if r.head?.elim false Char.isDigit then none else some (['0'], r)
    | c :: r =>
      if c.isDigit then some (c :: r.takeWhile Char.isDigit, r.dropWhile Char.isDigit)
      else none
    | [] => none
  let (fp, s3) ←
    match s2 with
    | '.' :: r =>
      if r.head?.elim false Char.isDigit then
        some ('.' :: r.takeWhile Char.isDigit, r.dropWhile Char.isDigit)
      else none
    | _ => some (([] : List Char), s2)
  let (ep, s4) ←
    match s3 with
    | e :: r =>
      if e = 'e' ∨ e = 'E' then
        let (sgn, r1) : List Char × List Char :=
          match r with
          | '+' :: rr => ([e, '+'], rr)
          | '-' :: rr => ([e, '-'], rr)
          | _ => ([e], r)
        if r1.head?.elim false Char.isDigit then
          some (sgn ++ r1.takeWhile Char.isDigit, r1.dropWhile Char.isDigit)
        else none
      else some (([] : List Char), s3)
    | [] => some ([], s3)
  some (sign ++ ip ++ fp ++ ep, s4)

/-- encoding/json's isValidNumber (the check applied when a quoted string
is decoded into a json.Number field). -/
def isValidNumber (s : List Char) : Bool :=
  match parseNumberLit s with
  | some (_, []) => true
  | _ => false

/-- Which grammar production a recursive-descent step is parsing. -/
inductive JMode where
  | value
  | members
  | elems

/-- One recursive-descent JSON parser; the fuel argument only drives
structural recursion and is instantiated generously by `jsonParse`. -/
def parseJ : Nat → JMode → List Char → List JValue → List (String × JValue) →
    Option (JValue × List Char)
  | 0, _, _, _, _ => none
  | fuel + 1, .value, s, _, _ =>
    match jsonSkipWs s with
    | '{' :: rest =>
      match jsonSkipWs rest with
      | '}' :: rest2 => some (.obj [], rest2)
      | rest2 => parseJ fuel .members rest2 [] []
    | '[' :: rest =>
      match jsonSkipWs rest with
      | ']' :: rest2 => some (.arr [], rest2)
      | rest2 => parseJ fuel .elems rest2 [] []
    | '"' :: rest =>
      match parseStringBody rest with
      | some (content, r) => some (.str ⟨content⟩, r)
      | none => none
    | 't' :: 'r' :: 'u' :: 'e' :: rest => some (.bool true, rest)
    | 'f' :: 'a' :: 'l' :: 's' :: 'e' :: rest => some (.bool false, rest)
    | 'n' :: 'u' :: 'l' :: 'l' :: rest => some (.null, rest)
    | s2 =>
      match parseNumberLit s2 with
      | some (lit, r) => some (.num ⟨lit⟩, r)
      | none => none
  | fuel + 1, .members, s, _, accM =>
    match jsonSkipWs s with
    | '"' :: rest =>
      match parseStringBody rest with
      | some (key, r1) =>
        (match jsonSkipWs r1 with
         | ':' :: r3 =>
           match parseJ fuel .value r3 [] [] with
           | some (v, r4) =>
             (match jsonSkipWs r4 with
              | ',' :: r6 => parseJ fuel .members r6 [] (accM ++ [(⟨key⟩, v)])
              | '}' :: r6 => some (.obj (accM ++ [(⟨key⟩, v)]), r6)
              | _ => none)
           | none => none
         | _ => none)
      | none => none
    | _ => none
  | fuel + 1, .elems, s, accV, _ =>
    match parseJ fuel .value s [] [] with
    | some (v, r1) =>
      (match jsonSkipWs r1 with
       | ',' :: r2 => parseJ fuel .elems r2 (accV ++ [v]) []
       | ']' :: r2 => some (.arr (accV ++ [v]), r2)
       | _ => none)
    | none => none

/-- json.Unmarshal's top-level syntax handling: one value, then only
whitespace may remain. -/
def jsonParse (s : List Char) : Except String JValue :=
  match parseJ (2 * s.length + 4) .value s [] [] with
  | some (v, rest) =>
    if jsonSkipWs rest = [] then .ok v
    else .error "invalid character after top-level value"
  | none => .error "invalid JSON input"

/-! ## binding the parsed JSON to the raw response struct -/

/-- The anonymous struct that parseResponse unmarshals into; json.Number
fields are kept as literal strings, and the zero values mirror Go's. -/
structure RawItem where
  name : String := ""
  amount : String := ""
  isTaxed : Bool := false
  quantity : Int := 0
deriving DecidableEq

structure RawInvoice where
  vendor : String := ""
  date : String := ""
  total : String := ""
  tax : String := ""
  categories : List String := []
  items : List RawItem := []
deriving DecidableEq

def foldChar (c : Char) : Char :=
  if 'A' ≤ c ∧ c ≤ 'Z' then Char.ofNat (c.toNat + 32) else c

/-- encoding/json field-name matching: exact, else ASCII case-insensitive. -/
def keyMatches (key field : String) : Bool :=
  key == field || key.data.map foldChar == field.data.map foldChar

def asJsonString (v : JValue) (cur : String) : Except String String :=
  match v with
  | .str s => .ok s
  | .null => .ok cur
  | _ => .error "cannot unmarshal value into string field"

/-- json.Number accepts a JSON number literal, or a JSON string whose
content passes isValidNumber. -/
def asJsonNumber (v : JValue) (cur : String) : Except String String :=
  match v with
  | .num lit => .ok lit
  | .str s => if isValidNumber s.data then .ok s else .error "invalid number literal"
  | .null => .ok cur
  | _ => .error "cannot unmarshal value into json.Number field"

def asJsonBool (v : JValue) (cur : Bool) : Except String Bool :=
  match v with
  | .bool b => .ok b
  | .null => .ok cur
  | _ => .error "cannot unmarshal value into bool field"

/-- An int field: the literal must parse under strconv.ParseInt, so a
fractional or exponent literal is an error. -/
def asJsonInt (v : JValue) (cur : Int) : Except String Int :=
  match v with
  | .num lit =>
    (match goParseInt lit.data with
     | some n => .ok n
     | none => .error "cannot unmarshal number into int field")
  | .null => .ok cur
  | _ => .error "cannot unmarshal value into int field"

def asStringElem (v : JValue) : Except String String :=
  match v with
  | .str s => .ok s
  | .null => .ok ""
  | _ => .error "cannot unmarshal value into string element"

def setItemField (it : RawItem) (key : String) (v : JValue) : Except String RawItem := do
  if keyMatches key "name" then
    let s ← asJsonString v it.name
    .ok { it with name := s }
  else if keyMatches key "amount" then
    let s ← asJsonNumber v it.amount
    .ok { it with amount := s }
  else if keyMatches key "isTaxed" then
    let b ← asJsonBool v it.isTaxed
    .ok { it with isTaxed := b }
  else if keyMatches key "quantity" then
    let n ← asJsonInt v it.quantity
    .ok { it with quantity := n }
  else .ok it

def decodeItem (v : JValue) : Except String RawItem :=
  match v with
  | .obj mems => mems.foldlM (fun it kv => setItemField it kv.1 kv.2) {}
  | .null => .ok {}
  | _ => .error "cannot unmarshal value into item struct"

def setInvoiceField (r : RawInvoice) (key : String) (v : JValue) :
    Except String RawInvoice := do
  if keyMatches key "vendor" then
    let s ← asJsonString v r.vendor
    .ok { r with vendor := s }
  else if keyMatches key "date" then
    let s ← asJsonString v r.date
    .ok { r with date := s }
  else if keyMatches key "total" then
    let s ← asJsonNumber v r.total
    .ok { r with total := s }
  else if keyMatches key "tax" then
    let s ← asJsonNumber v r.tax
    .ok { r with tax := s }
  else if keyMatches key "categories" then
    match v with
    | .arr xs => do
      let cs ← xs.mapM asStringElem
      .ok { r with categories := cs }
    | .null => .ok { r with categories := [] }
    | _ => .error "cannot unmarshal value into []string field"
  else if keyMatches key "items" then
    match v with
    | .arr xs => do
      let its ← xs.mapM decodeItem
      .ok { r with items := its }
    | .null => .ok { r with items := [] }
    | _ => .error "cannot unmarshal value into items field"
  else .ok r

def bindRawInvoice (v : JValue) : Except String RawInvoice :=
  match v with
  | .obj mems => mems.foldlM (fun r kv => setInvoiceField r kv.1 kv.2) {}
  | .null => .ok {}
  | _ => .error "cannot unmarshal non-object into invoice struct"

/-- json.Unmarshal of the response text into the raw invoice struct. -/
def jsonDecodeRawInvoice (s : List Char) : Except String RawInvoice :=
  (jsonParse s).bind bindRawInvoice

/-! ## internal/models and the extractor (internal/ai/extractor.go) -/

/-- models.InvoiceItem. -/
structure InvoiceItem where
  name : String
  amount : GoDecimal
  isTaxed : Bool
  quantity : Int
deriving DecidableEq

/-- models.Invoice.  Confidence is the float 0.85 in Go; it is embedded
as the exact decimal 85 * 10^-2 (no claim depends on it). -/
structure Invoice where
  vendor : String
  date : GoTime
  total : GoDecimal
  tax : GoDecimal
  items : List InvoiceItem
  categories : List String
  rawText : String
  confidence : GoDecimal
  processedAt : GoTime
deriving DecidableEq

/-- The fixed default confidence 0.85 written by parseResponse. -/
def defaultConfidence : GoDecimal := ⟨85, -2⟩

def fenceJsonChars : List Char := "```json".data

def fenceChars : List Char := "```".data

/-- The cleaning pass at the top of parseResponse: TrimSpace, strip all
"```json" occurrences, strip all "```" occurrences, TrimSpace again. -/
def cleanResponse (s : List Char) : List Char :=
  goTrimSpace (removeAll fenceChars (removeAll fenceJsonChars (goTrimSpace s)))

/-- The date-field logic of parseResponse: three layouts tried in order,
any failure leaving the zero time. -/
def parseResponseDate (d : String) : GoTime :=
  if d = "" then GoTime.zero
  else
    match parseISODate d with
    | some t => t
    | none =>
      match parseDMYDate d with
      | some t => t
      | none =>
        match parseRFC3339Date d with
        | some t => t
        | none => GoTime.zero

/-- The json.Number-field logic of parseResponse for total/tax: empty is
skipped, a NewFromString failure leaves the zero decimal. -/
def parseResponseDecimal (s : String) : GoDecimal :=
  if s = "" then GoDecimal.zero
  else
    match newFromString s with
    | some d => d
    | none => GoDecimal.zero

/-- The item conversion in parseResponse: NewFromString's error is
discarded, quantity is copied as-is. -/
def convertItem (it : RawItem) : InvoiceItem :=
  ⟨it.name, (newFromString it.amount).getD GoDecimal.zero, it.isTaxed, it.quantity⟩

/-- Construction of the models.Invoice from the decoded raw struct
(the second half of parseResponse); `now` stands for time.Now(). -/
def buildInvoice (raw : RawInvoice) (ocrText : String) (now : GoTime) : Invoice :=
  { vendor := raw.vendor
    date := parseResponseDate raw.date
    total := parseResponseDecimal raw.total
    tax := parseResponseDecimal raw.tax
    items := raw.items.map convertItem
    categories := raw.categories
    rawText := ocrText
    confidence := defaultConfidence
    processedAt := now }

/-- parseResponse from internal/ai/extractor.go. -/
def parseResponse (response ocrText : String) (now : GoTime) : Except String Invoice :=
  let cleaned := cleanResponse response.data
  match jsonDecodeRawInvoice cleaned with
  | .error e =>
    .error ("JSON parse error: " ++ e ++ "\nResponse: " ++ String.mk cleaned)
  | .ok raw => .ok (buildInvoice raw ocrText now)

def natToDigitsAux : Nat → Nat → List Char → List Char
  | 0, n, acc => Char.ofNat (48 + n % 10) :: acc
  | fuel + 1, n, acc =>
    if n < 10 then Char.ofNat (48 + n) :: acc
    else natToDigitsAux fuel (n / 10) (Char.ofNat (48 + n % 10) :: acc)

/-- %d formatting of the current year. -/
def natToString (n : Nat) : String := ⟨natToDigitsAux n n []⟩

/-- buildPrompt from internal/ai/extractor.go (the %s/%d template). -/
def buildPrompt (categories : List String) (currentYear : Nat) (ocrText : String) :
    String :=
  "Extract invoice/receipt data from the following text and return ONLY valid JSON.\n\nAvailable categories: "
  ++ String.intercalate ", " categories
  ++ "\n\nReturn JSON with this EXACT structure (no markdown, no code blocks):\n\x7b\n  \"vendor\": \"merchant/store name\",\n  \"date\": \"YYYY-MM-DD\",\n  \"total\": 123.45,\n  \"tax\": 12.34,\n  \"items\": [\n    \x7b\n      \"name\": \"item name\",\n      \"amount\": 10.50,\n      \"isTaxed\": true,\n      \"quantity\": 1\n    \x7d\n  ],\n  \"categories\": [\"category1\", \"category2\"]\n\x7d\n\nRules:\n- Use 'Unknown Vendor' if store name cannot be found\n- Omit fields if not found with confidence\n- Assume year is "
  ++ natToString currentYear
  ++ " if not specified\n- Total and amounts must be numbers (not strings)\n- Select up to 2 categories from the provided list\n- Extract individual items if visible in the receipt\n\nReceipt text:\n"
  ++ ocrText

/-! ## provider selection (api/handler.go createProvider) -/

inductive ProviderKind where
  | openai
  | gemini
  | ollama
deriving DecidableEq

/-- The provider value built by createProvider, with the constructor
defaults of NewOpenAIProvider / NewGeminiProvider / NewOllamaProvider
applied. -/
structure ProviderSpec where
  kind : ProviderKind
  apiKey : String
  baseURL : String
  model : String
deriving DecidableEq

/-- models.Config, restricted to the fields the pipeline reads. -/
structure Config where
  defaultProvider : String
  ocrEngine : String
  ocrLanguage : String
  openaiAPIKey : String
  openaiBaseURL : String
  openaiModel : String
  geminiAPIKey : String
  geminiModel : String
  ollamaBaseURL : String
  ollamaModel : String
  categories : List String
deriving DecidableEq

/-- createProvider from api/handler.go: a three-way name switch whose
default branch is the configuration error. -/
def createProvider (cfg : Config) (providerName modelName : String) :
    Except String ProviderSpec :=
  if providerName = "openai" then
    let model := if modelName = "" then cfg.openaiModel else modelName
    .ok ⟨.openai, cfg.openaiAPIKey, cfg.openaiBaseURL,
         if model = "" then "gpt-4" else model⟩
  else if providerName = "gemini" then
    let model := if modelName = "" then cfg.geminiModel else modelName
    .ok ⟨.gemini, cfg.geminiAPIKey, "",
         if model = "" then "gemini-pro" else model⟩
  else if providerName = "ollama" then
    let model := if modelName = "" then cfg.ollamaModel else modelName
    .ok ⟨.ollama, "",
         if cfg.ollamaBaseURL = "" then "http://localhost:11434" else cfg.ollamaBaseURL,
         if model = "" then "mistral" else model⟩
  else .error ("unsupported AI provider: " ++ providerName)

/-! ## the processing pipeline (api/handler.go processInvoice) -/

/-- A record of each external-collaborator invocation the pipeline makes. -/
inductive Event where
  | preprocessCall (scaleDown : Bool) (img : Bytes)
  | ocrCall (lang : String) (img : Bytes)
  | providerCall (p : ProviderSpec) (prompt : String) (imageBase64 : String)
deriving DecidableEq

/-- Oracles for the external collaborators: ImageMagick preprocessing,
Tesseract, and the AI backend HTTP calls; `aiSeconds`/`totalSeconds`
stand for the wall-clock durations measured in Go. -/
structure PipelineEnv where
  preprocess : Bool → Bytes → Except String Bytes
  recognize : String → Bytes → Except String (String × Nat)
  callProvider : ProviderSpec → String → String → Except String String
  aiSeconds : Nat
  totalSeconds : Nat

structure PipelineResult where
  outcome : Except String Invoice
  ocrDuration : Nat
  aiDuration : Nat
  events : List Event
deriving Inhabited

/-- Steps 3 and 4 of processInvoice: provider creation, then
Extractor.Extract (prompt build, provider call, parseResponse), with the
error wrapping of both Extract and processInvoice. -/
def runExtraction (env : PipelineEnv) (cfg : Config) (ocrText imageBase64 : String)
    (providerName modelName : String) (now : GoTime) (events : List Event)
    (ocrDuration : Nat) : PipelineResult :=
  match createProvider cfg providerName modelName with
  | .error e => ⟨.error e, ocrDuration, 0, events⟩
  | .ok p =>
    let prompt := buildPrompt cfg.categories now.year ocrText
    let events := events ++ [Event.providerCall p prompt imageBase64]
    match env.callProvider p prompt imageBase64 with
    | .error e =>
      ⟨.error ("AI extraction failed: " ++ ("AI extraction failed: " ++ e)),
       ocrDuration, 0, events⟩
    | .ok response =>
      match parseResponse response ocrText now with
      | .error e =>
        ⟨.error ("AI extraction failed: " ++ ("failed to parse AI response: " ++ e)),
         ocrDuration, 0, events⟩
      | .ok inv => ⟨.ok inv, ocrDuration, env.aiSeconds, events⟩

/-- processInvoice from api/handler.go: preprocess first, then the
vision/OCR branch, then provider creation and extraction. -/
def processInvoice (env : PipelineEnv) (cfg : Config) (imageData : Bytes)
    (useVisionModel : Bool) (providerName modelName language : String)
    (now : GoTime) : PipelineResult :=
  let scaleDown := cfg.ocrEngine == "easyocr"
  let ev0 := [Event.preprocessCall scaleDown imageData]
  match env.preprocess scaleDown imageData with
  | .error e => ⟨.error ("image preprocessing failed: " ++ e), 0, 0, ev0⟩
  | .ok processedImage =>
    match useVisionModel with
    | true =>
      runExtraction env cfg ""
        ("data:image/jpeg;base64," ++ base64EncodeString processedImage)
        providerName modelName now ev0 0
    | false =>
      let ev1 := ev0 ++ [Event.ocrCall language processedImage]
      match env.recognize language processedImage with
      | .error e => ⟨.error ("OCR failed: " ++ e), 0, 0, ev1⟩
      | .ok (text, dur) =>
        runExtraction env cfg text "" providerName modelName now ev1 dur

/-! ## the HTTP boundary (api/handler.go ProcessInvoice) -/

/-- models.ProcessResponse. -/
structure ProcessResponse where
  success : Bool
  invoice : Option Invoice
  error : String
  ocrDuration : Nat
  aiDuration : Nat
  totalDuration : Nat
deriving DecidableEq

/-- An HTTP body is either the bare sendError object or the normal
ProcessResponse envelope. -/
inductive HttpBody where
  | plainError (msg : String)
  | envelope (resp : ProcessResponse)
deriving DecidableEq

structure HttpResponse where
  status : Nat
  body : HttpBody
deriving DecidableEq

/-- The multipart-upload stages of the request, as booleans: whether
ParseMultipartForm, FormFile("file") and io.ReadAll succeed, plus the
form fields. -/
structure HttpRequest where
  formValid : Bool
  filePresent : Bool
  fileReadable : Bool
  fileBytes : Bytes
  useVisionModelField : String
  aiProviderField : String
  modelField : String
  languageField : String

/-- The aiProvider form field, defaulted from configuration when empty. -/
def resolvedProvider (cfg : Config) (r : HttpRequest) : String :=
  if r.aiProviderField = "" then cfg.defaultProvider else r.aiProviderField

/-- The language form field, defaulted from configuration when empty. -/
def resolvedLanguage (cfg : Config) (r : HttpRequest) : String :=
  if r.languageField = "" then cfg.ocrLanguage else r.languageField

/-- The processInvoice call made by the handler for a request. -/
def requestPipeline (env : PipelineEnv) (cfg : Config) (r : HttpRequest)
    (now : GoTime) : PipelineResult :=
  processInvoice env cfg r.fileBytes (r.useVisionModelField == "true")
    (resolvedProvider cfg r) r.modelField (resolvedLanguage cfg r) now

/-- ProcessInvoice from api/handler.go: upload validation, form-field
defaulting, the processing pipeline, and response serialization.  Every
pipeline failure is reported with HTTP 200 and success=false. -/
def handleProcessInvoice (env : PipelineEnv) (cfg : Config) (r : HttpRequest)
    (now : GoTime) : HttpResponse × List Event :=
  if r.formValid = false then
    (⟨400, .plainError "File too large or invalid form data"⟩, [])
  else if r.filePresent = false then
    (⟨400, .plainError "No file provided"⟩, [])
  else if r.fileReadable = false then
    (⟨500, .plainError "Failed to read file"⟩, [])
  else
    let pr := requestPipeline env cfg r now
    match pr.outcome with
    | .error e =>
      (⟨200, .envelope ⟨false, none, e, 0, 0, env.totalSeconds⟩⟩, pr.events)
    | .ok inv =>
      (⟨200, .envelope ⟨true, some inv, "", pr.ocrDuration, pr.aiDuration,
         env.totalSeconds⟩⟩, pr.events)

/-! ## lemmas about removeAll (strings.ReplaceAll with empty replacement) -/

theorem removeAllFuel_congr (pat : List Char) :
    ∀ n m (s : List Char), s.length ≤ n → s.length ≤ m →
      removeAllFuel pat n s = removeAllFuel pat m s := by
  intro n
  induction n with
  | zero =>
    intro m s hn _
    have hs : s = [] := List.length_eq_zero.mp (Nat.le_zero.mp hn)
    subst hs
    cases m <;> rfl
  | succ n ih =>
    intro m s hn hm
    match s with
    | [] => cases m <;> rfl
    | c :: rest =>
      match m with
      | 0 => simp at hm
      | m + 1 =>
        simp only [removeAllFuel]
        by_cases h : pat <+: (c :: rest) ∧ pat ≠ []
        · rw [if_pos h, if_pos h]
          have hpat : 1 ≤ pat.length := by
            cases hp : pat
            · exact absurd hp h.2
            · simp
          have hlen : ((c :: rest).drop pat.length).length ≤ rest.length := by
            simp only [List.length_drop, List.length_cons]
            omega
          have hn' : rest.length + 1 ≤ n + 1 := by simpa using hn
          have hm' : rest.length + 1 ≤ m + 1 := by simpa using hm
          exact ih _ _ (by omega) (by omega)
        · rw [if_neg h, if_neg h]
          have hn' : rest.length ≤ n := by simpa using hn
          have hm' : rest.length ≤ m := by simpa using hm
          rw [ih _ _ hn' hm']

theorem removeAll_nil (pat : List Char) : removeAll pat [] = [] := rfl

theorem removeAll_cons (pat : List Char) (c : Char) (rest : List Char) :
    removeAll pat (c :: rest) =
      if pat <+: (c :: rest) ∧ pat ≠ [] then
        removeAll pat ((c :: rest).drop pat.length)
      else c :: removeAll pat rest := by
  show removeAllFuel pat (rest.length + 1) (c :: rest) = _
  simp only [removeAllFuel]
  by_cases h : pat <+: (c :: rest) ∧ pat ≠ []
  · rw [if_pos h, if_pos h]
    have hpat : 1 ≤ pat.length := by
      cases hp : pat
      · exact absurd hp h.2
      · simp
    apply removeAllFuel_congr
    · simp only [List.length_drop, List.length_cons]
      omega
    · exact Nat.le_refl _
  · rw [if_neg h, if_neg h]
    rfl

theorem removeAll_head_match {pat s : List Char} (hp : pat ≠ []) (h : pat <+: s)
    (hs : s ≠ []) : removeAll pat s = removeAll pat (s.drop pat.length) := by
  match s with
  | [] => exact absurd rfl hs
  | c :: rest => rw [removeAll_cons, if_pos ⟨h, hp⟩]

theorem removeAll_no_match {pat : List Char} (c : Char) (rest : List Char)
    (h : ¬ pat <+: (c :: rest)) :
    removeAll pat (c :: rest) = c :: removeAll pat rest := by
  rw [removeAll_cons, if_neg]
  rintro ⟨h1, _⟩
  exact h h1

theorem removeAll_strip_head {pat s : List Char} (hp : pat ≠ []) :
    removeAll pat (pat ++ s) = removeAll pat s := by
  have hne : pat ++ s ≠ [] := by
    intro h
    exact hp (List.append_eq_nil.mp h).1
  rw [removeAll_head_match hp (List.prefix_append pat s) hne, List.drop_left]

theorem prefix_split_space {pat s tw : List Char}
    (hpat : ∀ c ∈ pat, isGoSpace c = false) (htw : ∀ c ∈ tw, isGoSpace c = true)
    (h : pat <+: s ++ tw) : pat <+: s := by
  rcases List.prefix_or_prefix_of_prefix h (List.prefix_append s tw) with h1 | h2
  · exact h1
  · obtain ⟨u, hu⟩ := h2
    match u with
    | [] =>
      rw [List.append_nil] at hu
      rw [← hu]
    | a :: u' =>
      exfalso
      have ha_pat : a ∈ pat := by
        rw [← hu]
        simp
      have h3 : (a :: u') <+: tw := by
        have hh := h
        rw [← hu] at hh
        exact (List.prefix_append_right_inj s).mp hh
      have ha_tw : a ∈ tw := h3.subset (by simp)
      have h4 := hpat a ha_pat
      have h5 := htw a ha_tw
      rw [h4] at h5
      exact Bool.false_ne_true h5

theorem removeAll_space_lead {pat lw s : List Char}
    (hpat : ∀ c ∈ pat, isGoSpace c = false) (hp : pat ≠ [])
    (hlw : ∀ c ∈ lw, isGoSpace c = true) :
    removeAll pat (lw ++ s) = lw ++ removeAll pat s := by
  induction lw with
  | nil => simp
  | cons c lw' ih =>
    have hnp : ¬ pat <+: (c :: (lw' ++ s)) := by
      match pat with
      | [] => exact absurd rfl hp
      | p :: ps =>
        intro hpre
        rw [List.cons_prefix_cons] at hpre
        have hc := hlw c (by simp)
        have hpc := hpat p (by simp)
        rw [hpre.1, hc] at hpc
        exact Bool.noConfusion hpc
    rw [List.cons_append, removeAll_no_match _ _ hnp,
        ih (fun d hd => hlw d (by simp [hd])), List.cons_append]

theorem removeAll_space_fix {pat tw : List Char}
    (hpat : ∀ c ∈ pat, isGoSpace c = false) (hp : pat ≠ [])
    (htw : ∀ c ∈ tw, isGoSpace c = true) : removeAll pat tw = tw := by
  have h := @removeAll_space_lead pat tw [] hpat hp htw
  simpa [removeAll_nil] using h

theorem removeAll_space_suffix {pat s tw : List Char} (hp : pat ≠ [])
    (hpat : ∀ c ∈ pat, isGoSpace c = false) (htw : ∀ c ∈ tw, isGoSpace c = true) :
    removeAll pat (s ++ tw) = removeAll pat s ++ tw := by
  suffices H : ∀ n (s : List Char), s.length ≤ n →
      removeAll pat (s ++ tw) = removeAll pat s ++ tw from H s.length s (Nat.le_refl _)
  intro n
  induction n with
  | zero =>
    intro s hs
    have hnil : s = [] := List.length_eq_zero.mp (Nat.le_zero.mp hs)
    subst hnil
    simp [removeAll_nil, removeAll_space_fix hpat hp htw]
  | succ n ih =>
    intro s hs
    match s with
    | [] => simp [removeAll_nil, removeAll_space_fix hpat hp htw]
    | c :: s' =>
      have hpatlen : 1 ≤ pat.length := by
        cases hpp : pat
        · exact absurd hpp hp
        · simp
      by_cases h : pat <+: (c :: s')
      · have h2 : pat <+: (c :: s') ++ tw := h.trans (List.prefix_append _ _)
        rw [removeAll_head_match hp h2 (by simp), removeAll_head_match hp h (by simp)]
        rw [List.drop_append_of_le_length h.length_le]
        apply ih
        have := h.length_le
        simp only [List.length_drop, List.length_cons] at *
        omega
      · have h2 : ¬ pat <+: ((c :: s') ++ tw) := fun hh =>
          h (prefix_split_space hpat htw hh)
        rw [List.cons_append] at h2
        rw [List.cons_append, removeAll_no_match _ _ h2, removeAll_no_match _ _ h,
            ih s' (by simp only [List.length_cons] at hs; omega),
            List.cons_append]

/-- No occurrence of "```json" can span the boundary with an appended
trailing "```" fence. -/
theorem fence_no_span {x : List Char} (h : fenceJsonChars <+: x ++ fenceChars) :
    fenceJsonChars <+: x := by
  rcases List.prefix_or_prefix_of_prefix h (List.prefix_append x fenceChars) with h1 | h2
  · exact h1
  · obtain ⟨u, hu⟩ := h2
    have hu_pre : u <+: fenceChars := by
      have hh := h
      rw [← hu] at hh
      exact (List.prefix_append_right_inj x).mp hh
    have hud : u = fenceJsonChars.drop x.length := by
      rw [← hu, List.drop_left]
    have hlen : x.length + u.length = 7 := by
      have hc := congrArg List.length hu
      simp only [List.length_append] at hc
      rw [hc]
      rfl
    have hule : u.length ≤ 3 := hu_pre.length_le
    match u, hud, hu_pre with
    | [], hud, _ =>
      rw [List.append_nil] at hu
      rw [hu]
    | a :: u', hud, hu_pre =>
      exfalso
      have ha : a = '`' := (List.cons_prefix_cons.mp hu_pre).1
      have hxl : x.length = 4 ∨ x.length = 5 ∨ x.length = 6 := by
        simp only [List.length_cons] at hlen hule
        omega
      rcases hxl with h4 | h5 | h6
      · rw [h4, show fenceJsonChars.drop 4 = ['s', 'o', 'n'] from rfl] at hud
        rw [ha] at hud
        exact absurd (List.head_eq_of_cons_eq hud) (by decide)
      · rw [h5, show fenceJsonChars.drop 5 = ['o', 'n'] from rfl] at hud
        rw [ha] at hud
        exact absurd (List.head_eq_of_cons_eq hud) (by decide)
      · rw [h6, show fenceJsonChars.drop 6 = ['n'] from rfl] at hud
        rw [ha] at hud
        exact absurd (List.head_eq_of_cons_eq hud) (by decide)

/-- Appending a "```" fence on the right commutes with removing all
"```json" occurrences. -/
theorem fence_json_wrap (x : List Char) :
    removeAll fenceJsonChars (x ++ fenceChars) =
      removeAll fenceJsonChars x ++ fenceChars := by
  suffices H : ∀ n (x : List Char), x.length ≤ n →
      removeAll fenceJsonChars (x ++ fenceChars) =
        removeAll fenceJsonChars x ++ fenceChars from H x.length x (Nat.le_refl _)
  intro n
  induction n with
  | zero =>
    intro x hx
    have hnil : x = [] := List.length_eq_zero.mp (Nat.le_zero.mp hx)
    subst hnil
    decide
  | succ n ih =>
    intro x hx
    match x with
    | [] => decide
    | c :: x' =>
      by_cases h : fenceJsonChars <+: (c :: x')
      · have h2 : fenceJsonChars <+: (c :: x') ++ fenceChars :=
          h.trans (List.prefix_append _ _)
        rw [removeAll_head_match (by decide) h2 (by simp),
            removeAll_head_match (by decide) h (by simp)]
        rw [List.drop_append_of_le_length h.length_le]
        apply ih
        have := h.length_le
        simp only [List.length_drop, List.length_cons] at *
        have h7 : fenceJsonChars.length = 7 := rfl
        omega
      · have h2 : ¬ fenceJsonChars <+: ((c :: x') ++ fenceChars) := fun hh =>
          h (fence_no_span hh)
        rw [List.cons_append] at h2
        rw [List.cons_append, removeAll_no_match _ _ h2, removeAll_no_match _ _ h,
            ih x' (by simp only [List.length_cons] at hx; omega),
            List.cons_append]

/-- Removing all "```" occurrences absorbs a trailing "```" fence. -/
theorem fence3_wrap (y : List Char) :
    removeAll fenceChars (y ++ fenceChars) = removeAll fenceChars y := by
  suffices H : ∀ n (y : List Char), y.length ≤ n →
      removeAll fenceChars (y ++ fenceChars) = removeAll fenceChars y from
    H y.length y (Nat.le_refl _)
  intro n
  induction n with
  | zero =>
    intro y hy
    have hnil : y = [] := List.length_eq_zero.mp (Nat.le_zero.mp hy)
    subst hnil
    decide
  | succ n ih =>
    intro y hy
    match y with
    | [] => decide
    | c :: y' =>
      by_cases h : fenceChars <+: (c :: y')
      · have h2 : fenceChars <+: (c :: y') ++ fenceChars :=
          h.trans (List.prefix_append _ _)
        rw [removeAll_head_match (by decide) h2 (by simp),
            removeAll_head_match (by decide) h (by simp)]
        rw [List.drop_append_of_le_length h.length_le]
        apply ih
        have := h.length_le
        simp only [List.length_drop, List.length_cons] at *
        have h3 : fenceChars.length = 3 := rfl
        omega
      · by_cases h2 : fenceChars <+: ((c :: y') ++ fenceChars)
        · have hlt : (c :: y').length < 3 := by
            by_contra hge
            push_neg at hge
            have hge' : fenceChars.length ≤ (c :: y').length := hge
            exact h ((List.isPrefix_append_of_length hge').mp h2)
          have hc : c = '`' := by
            rw [List.cons_append] at h2
            exact (List.cons_prefix_cons.mp h2).1.symm
          match y', hlt with
          | [], _ =>
            subst hc
            decide
          | [b], _ =>
            have hb : b = '`' := by
              rw [List.cons_append, List.cons_append] at h2
              exact (List.cons_prefix_cons.mp (List.cons_prefix_cons.mp h2).2).1.symm
            subst hc
            subst hb
            decide
        · rw [List.cons_append] at h2
          rw [List.cons_append, removeAll_no_match _ _ h2, removeAll_no_match _ _ h,
              ih y' (by simp only [List.length_cons] at hy; omega)]

/-! ## lemmas about strings.TrimSpace -/

theorem trimLeft_space_lead {lw s : List Char}
    (hlw : ∀ c ∈ lw, isGoSpace c = true) : trimLeft (lw ++ s) = trimLeft s := by
  induction lw with
  | nil => simp
  | cons c lw' ih =>
    unfold trimLeft at *
    rw [List.cons_append, List.dropWhile_cons, if_pos (by simp [hlw c (by simp)])]
    exact ih (fun d hd => hlw d (by simp [hd]))

theorem trimRight_space_suffix {s tw : List Char}
    (htw : ∀ c ∈ tw, isGoSpace c = true) : trimRight (s ++ tw) = trimRight s := by
  unfold trimRight
  rw [List.reverse_append]
  have h := @trimLeft_space_lead tw.reverse s.reverse
    (fun c hc => htw c (List.mem_reverse.mp hc))
  unfold trimLeft at h
  rw [h]

theorem goTrimSpace_space_lead {lw s : List Char}
    (hlw : ∀ c ∈ lw, isGoSpace c = true) : goTrimSpace (lw ++ s) = goTrimSpace s := by
  unfold goTrimSpace
  rw [trimLeft_space_lead hlw]

theorem goTrimSpace_space_suffix {s tw : List Char}
    (htw : ∀ c ∈ tw, isGoSpace c = true) : goTrimSpace (s ++ tw) = goTrimSpace s := by
  unfold goTrimSpace trimLeft
  rw [List.dropWhile_append]
  by_cases h : (s.dropWhile isGoSpace).isEmpty
  · rw [if_pos h]
    have h1 : tw.dropWhile isGoSpace = [] := List.dropWhile_eq_nil_iff.mpr htw
    have h2 : s.dropWhile isGoSpace = [] := by
      cases hh : s.dropWhile isGoSpace
      · rfl
      · rw [hh] at h
        simp [List.isEmpty] at h
    rw [h1, h2]
  · rw [if_neg h]
    exact trimRight_space_suffix htw

theorem trimLeft_decomp (s : List Char) :
    ∃ lw, (∀ c ∈ lw, isGoSpace c = true) ∧ s = lw ++ trimLeft s :=
  ⟨s.takeWhile isGoSpace, fun _ hc => List.mem_takeWhile_imp hc,
   (List.takeWhile_append_dropWhile isGoSpace s).symm⟩

theorem trimRight_decomp (s : List Char) :
    ∃ tw, (∀ c ∈ tw, isGoSpace c = true) ∧ s = trimRight s ++ tw := by
  refine ⟨(s.reverse.takeWhile isGoSpace).reverse,
    fun c hc => List.mem_takeWhile_imp (List.mem_reverse.mp hc), ?_⟩
  unfold trimRight
  rw [← List.reverse_append, List.takeWhile_append_dropWhile, List.reverse_reverse]

/-! ## the cleaning pass absorbs a Markdown fence wrapper -/

theorem fence_json_nonspace : ∀ c ∈ fenceJsonChars, isGoSpace c = false := by decide

theorem fence3_nonspace : ∀ c ∈ fenceChars, isGoSpace c = false := by decide

/-- The inner TrimSpace of the cleaning pass is redundant modulo the
outer one (leading trim). -/
theorem clean_core_left (z : List Char) :
    goTrimSpace (removeAll fenceChars (removeAll fenceJsonChars z)) =
      goTrimSpace (removeAll fenceChars (removeAll fenceJsonChars (trimLeft z))) := by
  obtain ⟨lw, hlw, hz⟩ := trimLeft_decomp z
  conv_lhs => rw [hz]
  rw [removeAll_space_lead fence_json_nonspace (by decide) hlw,
      removeAll_space_lead fence3_nonspace (by decide) hlw,
      goTrimSpace_space_lead hlw]

/-- The inner TrimSpace of the cleaning pass is redundant modulo the
outer one (trailing trim). -/
theorem clean_core_right (z : List Char) :
    goTrimSpace (removeAll fenceChars (removeAll fenceJsonChars z)) =
      goTrimSpace (removeAll fenceChars (removeAll fenceJsonChars (trimRight z))) := by
  obtain ⟨tw, htw, hz⟩ := trimRight_decomp z
  conv_lhs => rw [hz]
  rw [removeAll_space_suffix (by decide) fence_json_nonspace htw,
      removeAll_space_suffix (by decide) fence3_nonspace htw,
      goTrimSpace_space_suffix htw]

/-- The inner TrimSpace of the cleaning pass is redundant modulo the
outer one. -/
theorem clean_core (s : List Char) :
    goTrimSpace (removeAll fenceChars (removeAll fenceJsonChars (goTrimSpace s))) =
      goTrimSpace (removeAll fenceChars (removeAll fenceJsonChars s)) := by
  rw [show goTrimSpace s = trimRight (trimLeft s) from rfl,
      ← clean_core_right (trimLeft s), ← clean_core_left s]

/-- cleanResponse strips a "```json" … "```" wrapper exactly. -/
theorem cleanResponse_fence_wrap (x : List Char) :
    cleanResponse (fenceJsonChars ++ x ++ fenceChars) = cleanResponse x := by
  unfold cleanResponse
  rw [clean_core, List.append_assoc, removeAll_strip_head (by decide),
      fence_json_wrap, fence3_wrap, ← clean_core]

theorem string_data_append (a b : String) : (a ++ b).data = a.data ++ b.data := by
  cases a
  cases b
  rfl

/-- C6: for every provider answer text x, parsing the answer wrapped in
Markdown code fences ("```json" before and "```" after x) yields exactly
the same result as parsing x unwrapped — the same success/failure, and
the same parsed record fields (the timestamp is the same `now` input). -/
theorem c6_fence_wrapped_parse_eq (x ocrText : String) (now : GoTime) :
    parseResponse ("```json" ++ x ++ "```") ocrText now =
      parseResponse x ocrText now := by
  have h : cleanResponse (("```json" ++ x ++ "```").data) = cleanResponse x.data := by
    rw [string_data_append, string_data_append,
        show ("```json" : String).data = fenceJsonChars from rfl,
        show ("```" : String).data = fenceChars from rfl]
    exact cleanResponse_fence_wrap x.data
  unfold parseResponse
  rw [h]

set_option maxRecDepth 100000 in
/-- C2: on the synthetic provider answer
{"vendor":"Acme","date":"2024-03-01","total":"12.50","tax":"1.00",
 "items":[{"name":"Widget","amount":"12.50","isTaxed":true,"quantity":2}],
 "categories":["Shopping"]}, the parse step succeeds with vendor "Acme",
date 2024-03-01, total the exact decimal 12.50 (1250 * 10^-2), tax 1.00,
one line item with amount 12.50 / isTaxed true / quantity 2, and
categories ["Shopping"]. -/
theorem c2_synthetic_answer_roundtrip :
    parseResponse
      "\x7b\"vendor\":\"Acme\",\"date\":\"2024-03-01\",\"total\":\"12.50\",\"tax\":\"1.00\",\"items\":[\x7b\"name\":\"Widget\",\"amount\":\"12.50\",\"isTaxed\":true,\"quantity\":2\x7d],\"categories\":[\"Shopping\"]\x7d"
      "" GoTime.zero =
    .ok ⟨"Acme", ⟨2024, 3, 1, 0, 0, 0, 0⟩, ⟨1250, -2⟩, ⟨100, -2⟩,
         [⟨"Widget", ⟨1250, -2⟩, true, 2⟩], ["Shopping"], "", defaultConfidence,
         GoTime.zero⟩ := by decide

/-- C4 (code bug): decodeBase64 does not decode.  On the standard base64
encoding "QQ==" of the byte 0x41, it returns the bytes of the TEXT
"QQ==" (0x51 0x51 0x3D 0x3D), not the original byte 0x41, because its
io.ReadFull path merely copies the input string and the encoding/base64
fallback is an unimplemented stub. -/
theorem c4_decode_base64_codebug :
    base64EncodeString [0x41] = "QQ==" ∧
    decodeBase64 "QQ==" = .ok [0x51, 0x51, 0x3D, 0x3D] ∧
    decodeBase64 (base64EncodeString [0x41]) ≠ .ok [0x41] := by decide

/-- C3 (counterexample): the 2-byte input 0xFF 0xD8 starts with the JPEG
magic, yet detectMIMEType returns "application/octet-stream", not
"image/jpeg" — every input shorter than 4 bytes takes the early
octet-stream branch the claim omits. -/
theorem c3_detect_mime_counterexample :
    detectMIMEType [0xFF, 0xD8] = "application/octet-stream" ∧
    "application/octet-stream" ≠ "image/jpeg" := by decide

/-- C3 (amended): for inputs of at least 4 bytes the sniffer returns
image/jpeg on the FFD8 magic, image/png on 89504E47, image/gif on
474946, image/webp on a RIFF....WEBP container of at least 12 bytes,
and defaults to image/jpeg otherwise; inputs shorter than 4 bytes yield
application/octet-stream instead. -/
theorem c3_detect_mime_amended (data : Bytes) :
    (data.length < 4 → detectMIMEType data = "application/octet-stream") ∧
    (4 ≤ data.length → [0xFF, 0xD8] <+: data → detectMIMEType data = "image/jpeg") ∧
    (4 ≤ data.length → [0x89, 0x50, 0x4E, 0x47] <+: data →
      detectMIMEType data = "image/png") ∧
    (4 ≤ data.length → [0x47, 0x49, 0x46] <+: data →
      detectMIMEType data = "image/gif") ∧
    (12 ≤ data.length → [0x52, 0x49, 0x46, 0x46] <+: data →
      (data.drop 8).take 4 = [0x57, 0x45, 0x42, 0x50] →
      detectMIMEType data = "image/webp") ∧
    (4 ≤ data.length → ¬ [0xFF, 0xD8] <+: data → ¬ [0x89, 0x50, 0x4E, 0x47] <+: data →
      ¬ [0x47, 0x49, 0x46] <+: data →
      ¬ ([0x52, 0x49, 0x46, 0x46] <+: data ∧ 12 ≤ data.length ∧
         (data.drop 8).take 4 = [0x57, 0x45, 0x42, 0x50]) →
      detectMIMEType data = "image/jpeg") := by
  match data with
  | [] => refine ⟨fun _ => rfl, ?_, ?_, ?_, ?_, ?_⟩ <;> intro h <;> simp at h
  | [a] => refine ⟨fun _ => rfl, ?_, ?_, ?_, ?_, ?_⟩ <;> intro h <;> simp at h
  | [a, b] => refine ⟨fun _ => rfl, ?_, ?_, ?_, ?_, ?_⟩ <;> intro h <;> simp at h
  | [a, b, c] => refine ⟨fun _ => rfl, ?_, ?_, ?_, ?_, ?_⟩ <;> intro h <;> simp at h
  | d0 :: d1 :: d2 :: d3 :: rest =>
    have hlen : ¬ (d0 :: d1 :: d2 :: d3 :: rest).length < 4 := by
      simp only [List.length_cons]
      omega
    refine ⟨fun h => absurd h hlen, ?_, ?_, ?_, ?_, ?_⟩
    · intro _ hpre
      simp only [List.cons_prefix_cons, List.nil_prefix, and_true] at hpre
      obtain ⟨h0, h1⟩ := hpre
      subst h0
      subst h1
      unfold detectMIMEType
      rw [if_neg hlen, if_pos (by simp)]
    · intro _ hpre
      simp only [List.cons_prefix_cons, List.nil_prefix, and_true] at hpre
      obtain ⟨h0, h1, h2, h3⟩ := hpre
      subst h0
      subst h1
      subst h2
      subst h3
      unfold detectMIMEType
      rw [if_neg hlen, if_neg (by simp), if_pos (by simp)]
    · intro _ hpre
      simp only [List.cons_prefix_cons, List.nil_prefix, and_true] at hpre
      obtain ⟨h0, h1, h2⟩ := hpre
      subst h0
      subst h1
      subst h2
      unfold detectMIMEType
      rw [if_neg hlen, if_neg (by simp), if_neg (by simp), if_pos (by simp)]
    · intro h12 hpre htail
      simp only [List.cons_prefix_cons, List.nil_prefix, and_true] at hpre
      obtain ⟨h0, h1, h2, h3⟩ := hpre
      subst h0
      subst h1
      subst h2
      subst h3
      unfold detectMIMEType
      rw [if_neg hlen, if_neg (by simp), if_neg (by simp), if_neg (by simp),
          if_pos ⟨h12, by simp, htail⟩]
    · intro _ hj hp hg hw
      unfold detectMIMEType
      rw [if_neg hlen]
      rw [if_neg (fun hc => hj (by
        simp only [List.getD_cons_zero, List.getD_cons_succ] at hc
        simp [List.cons_prefix_cons, hc.1, hc.2]))]
      rw [if_neg (fun hc => hp (by
        simp only [List.getD_cons_zero, List.getD_cons_succ] at hc
        simp [List.cons_prefix_cons, hc.1, hc.2.1, hc.2.2.1, hc.2.2.2]))]
      rw [if_neg (fun hc => hg (by
        simp only [List.getD_cons_zero, List.getD_cons_succ] at hc
        simp [List.cons_prefix_cons, hc.1, hc.2.1, hc.2.2]))]
      rw [if_neg (fun hc => hw (by
        obtain ⟨hcl, hct, hcd⟩ := hc
        refine ⟨?_, hcl, hcd⟩
        have ht4 : (d0 :: d1 :: d2 :: d3 :: rest).take 4 = [d0, d1, d2, d3] := by
          simp
        rw [ht4] at hct
        simp only [List.cons.injEq] at hct
        simp [List.cons_prefix_cons, hct.1, hct.2.1, hct.2.2.1, hct.2.2.2.1]))]

/-- C3 (witness): the amended theorem applied at the 4-byte PNG magic. -/
theorem c3_detect_mime_witness :
    detectMIMEType [0x89, 0x50, 0x4E, 0x47] = "image/png" :=
  (c3_detect_mime_amended [0x89, 0x50, 0x4E, 0x47]).2.2.1 (by decide) (by decide)

/-- C5: whenever the cleaned provider answer decodes as JSON, the parse
step succeeds no matter what the date text is, and the record's date is
the first of YYYY-MM-DD, DD/MM/YYYY, RFC3339 to parse — the zero (unset)
time when all three fail. -/
theorem c5_date_parse_order (response ocrText : String) (now : GoTime)
    (raw : RawInvoice)
    (h : jsonDecodeRawInvoice (cleanResponse response.data) = .ok raw) :
    parseResponse response ocrText now = .ok (buildInvoice raw ocrText now) ∧
    (buildInvoice raw ocrText now).date =
      (((parseISODate raw.date).orElse fun _ => parseDMYDate raw.date).orElse
        fun _ => parseRFC3339Date raw.date).getD GoTime.zero := by
  constructor
  · unfold parseResponse
    simp only [h]
  · show parseResponseDate raw.date = _
    unfold parseResponseDate
    by_cases hd : raw.date = ""
    · rw [if_pos hd, hd]
      decide
    · rw [if_neg hd]
      cases h1 : parseISODate raw.date <;> cases h2 : parseDMYDate raw.date <;>
        cases h3 : parseRFC3339Date raw.date <;>
        simp [h1, h2, h3, Option.orElse]

/-- C5 (witness): the answer {"date":"March 1st"} decodes, extraction
succeeds, and the date is left at the zero time. -/
theorem c5_date_parse_order_witness :
    jsonDecodeRawInvoice (cleanResponse ("\x7b\"date\":\"March 1st\"\x7d" : String).data) =
      .ok { date := "March 1st" } ∧
    parseResponse "\x7b\"date\":\"March 1st\"\x7d" "" GoTime.zero =
      .ok (buildInvoice { date := "March 1st" } "" GoTime.zero) ∧
    (buildInvoice { date := "March 1st" } "" GoTime.zero).date = GoTime.zero := by
  have h := c5_date_parse_order "\x7b\"date\":\"March 1st\"\x7d" "" GoTime.zero
    { date := "March 1st" } (by decide)
  refine ⟨by decide, h.1, ?_⟩
  rw [h.2]
  decide

/-- C9 (counterexample): an answer item that omits quantity decodes with
quantity 0 — Go's int zero value — not the claimed default 1. -/
theorem c9_quantity_default_counterexample :
    parseResponse "\x7b\"items\":[\x7b\"name\":\"Widget\",\"amount\":5\x7d]\x7d" ""
      GoTime.zero =
      .ok ⟨"", GoTime.zero, GoDecimal.zero, GoDecimal.zero,
           [⟨"Widget", ⟨5, 0⟩, false, 0⟩], [], "", defaultConfidence, GoTime.zero⟩ ∧
    ((0 : Int) = 1 → False) := by decide

/-- C9 (amended): the items sequence is the element-wise, order-preserving
conversion of the answer's items; each quantity is copied verbatim from
the answer (negative values included), and an item that omits quantity
decodes with quantity 0, not 1. -/
theorem c9_items_amended (raw : RawInvoice) (ocrText : String) (now : GoTime)
    (name amount : String) :
    (buildInvoice raw ocrText now).items = raw.items.map convertItem ∧
    (∀ it : RawItem, (convertItem it).quantity = it.quantity) ∧
    decodeItem (.obj [("name", .str name), ("amount", .num amount)]) =
      .ok ⟨name, amount, false, 0⟩ ∧
    decodeItem (.obj [("name", .str name), ("quantity", .num "-3")]) =
      .ok ⟨name, "", false, -3⟩ := by
  refine ⟨rfl, fun it => rfl, ?_, ?_⟩ <;> rfl

/-! ## helper lemmas about the pipeline -/

theorem parseResponse_ok_rawText {response ocrText : String} {now : GoTime}
    {inv : Invoice} (h : parseResponse response ocrText now = .ok inv) :
    inv.rawText = ocrText := by
  unfold parseResponse at h
  cases hd : jsonDecodeRawInvoice (cleanResponse response.data) with
  | error e =>
    simp only [hd] at h
    exact Except.noConfusion h
  | ok raw =>
    simp only [hd] at h
    cases h
    rfl

theorem runExtraction_config_error {cfg : Config} {providerName modelName msg : String}
    (env : PipelineEnv) (ocrText imageBase64 : String) (now : GoTime)
    (events : List Event) (d : Nat)
    (hcp : createProvider cfg providerName modelName = .error msg) :
    runExtraction env cfg ocrText imageBase64 providerName modelName now events d =
      ⟨.error msg, d, 0, events⟩ := by
  unfold runExtraction
  rw [hcp]

theorem runExtraction_events (env : PipelineEnv) (cfg : Config)
    (ocrText imageBase64 providerName modelName : String) (now : GoTime)
    (events : List Event) (d : Nat) :
    (runExtraction env cfg ocrText imageBase64 providerName modelName now
        events d).events = events ∨
    ∃ p, (runExtraction env cfg ocrText imageBase64 providerName modelName now
        events d).events =
      events ++ [Event.providerCall p (buildPrompt cfg.categories now.year ocrText)
        imageBase64] := by
  unfold runExtraction
  cases createProvider cfg providerName modelName with
  | error e => exact Or.inl rfl
  | ok p =>
    refine Or.inr ⟨p, ?_⟩
    dsimp only
    cases env.callProvider p (buildPrompt cfg.categories now.year ocrText) imageBase64 with
    | error e => rfl
    | ok resp =>
      dsimp only
      cases parseResponse resp ocrText now with
      | error e => rfl
      | ok inv => rfl

theorem runExtraction_ok_rawText {env : PipelineEnv} {cfg : Config}
    {ocrText imageBase64 providerName modelName : String} {now : GoTime}
    {events : List Event} {d : Nat} {inv : Invoice}
    (h : (runExtraction env cfg ocrText imageBase64 providerName modelName now
        events d).outcome = .ok inv) : inv.rawText = ocrText := by
  unfold runExtraction at h
  cases hc : createProvider cfg providerName modelName with
  | error e =>
    simp only [hc] at h
    exact Except.noConfusion h
  | ok p =>
    simp only [hc] at h
    cases hcall : env.callProvider p (buildPrompt cfg.categories now.year ocrText)
        imageBase64 with
    | error e =>
      simp only [hcall] at h
      exact Except.noConfusion h
    | ok resp =>
      simp only [hcall] at h
      cases hpr : parseResponse resp ocrText now with
      | error e =>
        simp only [hpr] at h
        exact Except.noConfusion h
      | ok inv' =>
        simp only [hpr] at h
        cases h
        exact parseResponse_ok_rawText hpr

/-! ## concrete environments used by the witnesses and counterexamples -/

/-- A benign oracle environment: preprocessing returns its input, OCR
succeeds, the provider answers the empty JSON object. -/
def env0 : PipelineEnv :=
  { preprocess := fun _ b => .ok b
    recognize := fun _ _ => .ok ("OCR TEXT", 2)
    callProvider := fun _ _ _ => .ok "\x7b\x7d"
    aiSeconds := 3
    totalSeconds := 9 }

/-- An environment whose image preprocessing fails. -/
def envFail : PipelineEnv :=
  { preprocess := fun _ _ => .error "boom"
    recognize := fun _ _ => .error "no"
    callProvider := fun _ _ _ => .error "no"
    aiSeconds := 0
    totalSeconds := 5 }

def cfg0 : Config :=
  { defaultProvider := "gemini", ocrEngine := "tesseract", ocrLanguage := "eng",
    openaiAPIKey := "k1", openaiBaseURL := "", openaiModel := "gpt-4",
    geminiAPIKey := "k2", geminiModel := "gemini-pro",
    ollamaBaseURL := "", ollamaModel := "mistral",
    categories := ["Shopping", "Food"] }

/-- C1 (counterexample): with provider name "unsupported-xyz" the pipeline
does fail with the configuration error, but only AFTER image work: the
Image Preprocessor (and here also the Text Recognizer) has already been
invoked, contradicting "the Image Preprocessor is never invoked". -/
theorem c1_unsupported_provider_counterexample :
    (processInvoice env0 cfg0 [1, 2, 3] false "unsupported-xyz" "" "eng"
        GoTime.zero).outcome =
      .error "unsupported AI provider: unsupported-xyz" ∧
    Event.preprocessCall false [1, 2, 3] ∈
      (processInvoice env0 cfg0 [1, 2, 3] false "unsupported-xyz" "" "eng"
        GoTime.zero).events ∧
    Event.ocrCall "eng" [1, 2, 3] ∈
      (processInvoice env0 cfg0 [1, 2, 3] false "unsupported-xyz" "" "eng"
        GoTime.zero).events := by decide

/-- C1 (amended): for every request whose provider name is not
"openai"/"gemini"/"ollama", the Image Preprocessor IS invoked first and
the AI provider is never invoked; provided preprocessing (and, on the
OCR path, recognition) succeeds, the pipeline then fails with the
configuration error "unsupported AI provider: <name>". -/
theorem c1_unsupported_provider_amended (env : PipelineEnv) (cfg : Config)
    (img : Bytes) (useVision : Bool) (name modelName lang : String) (now : GoTime)
    (h1 : name ≠ "openai") (h2 : name ≠ "gemini") (h3 : name ≠ "ollama") :
    Event.preprocessCall (cfg.ocrEngine == "easyocr") img ∈
      (processInvoice env cfg img useVision name modelName lang now).events ∧
    (∀ p prompt image, Event.providerCall p prompt image ∉
      (processInvoice env cfg img useVision name modelName lang now).events) ∧
    (∀ processed, env.preprocess (cfg.ocrEngine == "easyocr") img = .ok processed →
      (useVision = true ∨ ∃ text dur, env.recognize lang processed = .ok (text, dur)) →
      (processInvoice env cfg img useVision name modelName lang now).outcome =
        .error ("unsupported AI provider: " ++ name)) := by
  have hcp : createProvider cfg name modelName =
      .error ("unsupported AI provider: " ++ name) := by
    unfold createProvider
    rw [if_neg h1, if_neg h2, if_neg h3]
  unfold processInvoice
  cases hp : env.preprocess (cfg.ocrEngine == "easyocr") img with
  | error e =>
    simp only [hp]
    refine ⟨by simp, ?_, ?_⟩
    · intro p prompt image hmem
      simp at hmem
    · intro processed hproc _
      exact Except.noConfusion hproc
  | ok processed =>
    simp only [hp]
    cases useVision with
    | true =>
      dsimp only
      rw [runExtraction_config_error env "" _ now _ 0 hcp]
      refine ⟨by simp, ?_, ?_⟩
      · intro p prompt image hmem
        simp at hmem
      · intro _ _ _
        rfl
    | false =>
      dsimp only
      cases hr : env.recognize lang processed with
      | error e =>
        simp only [hr]
        refine ⟨by simp, ?_, ?_⟩
        · intro p prompt image hmem
          simp at hmem
        · intro processed' hproc hocr
          obtain rfl := Except.ok.inj hproc
          rcases hocr with hcontra | ⟨text, dur, hrec⟩
          · exact Bool.noConfusion hcontra
          · exact Except.noConfusion (hr.symm.trans hrec)
      | ok td =>
        simp only [hr]
        cases td with
        | mk text dur =>
          dsimp only
          rw [runExtraction_config_error env text _ now _ dur hcp]
          refine ⟨by simp, ?_, ?_⟩
          · intro p prompt image hmem
            simp at hmem
          · intro _ _ _
            rfl

/-- C1 (witness): the amended theorem at a concrete request — the
preprocessor runs, the provider never runs, and the configuration error
is returned after preprocessing and OCR succeed. -/
theorem c1_unsupported_provider_witness :
    Event.preprocessCall false [9] ∈
      (processInvoice env0 cfg0 [9] false "unsupported-xyz" "" "spa"
        GoTime.zero).events ∧
    Event.providerCall ⟨.openai, "k1", "", "gpt-4"⟩ "p" "i" ∉
      (processInvoice env0 cfg0 [9] false "unsupported-xyz" "" "spa"
        GoTime.zero).events ∧
    (processInvoice env0 cfg0 [9] false "unsupported-xyz" "" "spa"
        GoTime.zero).outcome =
      .error "unsupported AI provider: unsupported-xyz" := by
  have h := c1_unsupported_provider_amended env0 cfg0 [9] false "unsupported-xyz"
    "" "spa" GoTime.zero (by decide) (by decide) (by decide)
  exact ⟨h.1, h.2.1 _ "p" "i", h.2.2 [9] rfl (Or.inr ⟨"OCR TEXT", 2, rfl⟩)⟩

/-- C7: once a request passes upload validation, every processing failure
is reported with HTTP status 200 and a success=false envelope carrying
the wrapped message; status 400 arises only from upload validation,
before any processing event occurs. -/
theorem c7_processing_errors_in_envelope (env : PipelineEnv) (cfg : Config)
    (r : HttpRequest) (now : GoTime) :
    (r.formValid = true → r.filePresent = true → r.fileReadable = true →
      ∀ e, (requestPipeline env cfg r now).outcome = .error e →
        (handleProcessInvoice env cfg r now).1 =
          ⟨200, .envelope ⟨false, none, e, 0, 0, env.totalSeconds⟩⟩) ∧
    ((handleProcessInvoice env cfg r now).1.status = 400 →
      (r.formValid = false ∨ r.filePresent = false) ∧
      (handleProcessInvoice env cfg r now).2 = []) := by
  unfold handleProcessInvoice
  by_cases h1 : r.formValid = false
  · rw [if_pos h1]
    exact ⟨fun ht => absurd (ht ▸ h1) Bool.noConfusion, fun _ => ⟨Or.inl h1, rfl⟩⟩
  · rw [if_neg h1]
    by_cases h2 : r.filePresent = false
    · rw [if_pos h2]
      exact ⟨fun _ ht => absurd (ht ▸ h2) Bool.noConfusion,
             fun _ => ⟨Or.inr h2, rfl⟩⟩
    · rw [if_neg h2]
      by_cases h3 : r.fileReadable = false
      · rw [if_pos h3]
        exact ⟨fun _ _ ht => absurd (ht ▸ h3) Bool.noConfusion,
               fun hst => absurd hst (by simp)⟩
      · rw [if_neg h3]
        dsimp only
        cases ho : (requestPipeline env cfg r now).outcome with
        | error e' =>
          refine ⟨?_, ?_⟩
          · intro _ _ _ e he
            cases he
            rfl
          · intro hst
            simp at hst
        | ok inv =>
          refine ⟨?_, ?_⟩
          · intro _ _ _ e he
            exact Except.noConfusion he
          · intro hst
            simp at hst

/-- C7 (witness): a request that passes upload validation and fails in
preprocessing is answered with status 200, success=false, and the
wrapped message. -/
theorem c7_processing_errors_witness :
    (handleProcessInvoice envFail cfg0 ⟨true, true, true, [1], "false", "gemini", "", ""⟩
        GoTime.zero).1 =
      ⟨200, .envelope ⟨false, none, "image preprocessing failed: boom", 0, 0, 5⟩⟩ :=
  (c7_processing_errors_in_envelope envFail cfg0
      ⟨true, true, true, [1], "false", "gemini", "", ""⟩ GoTime.zero).1
    rfl rfl rfl "image preprocessing failed: boom" (by decide)

/-- C8: with useVisionModel=true the Text Recognizer is never invoked,
any successful extraction carries an empty rawText, and the image handed
to the provider is the preprocessed image base64-encoded behind the
"data:image/jpeg;base64," prefix. -/
theorem c8_vision_bypass (env : PipelineEnv) (cfg : Config) (img : Bytes)
    (name modelName lang : String) (now : GoTime) :
    (∀ l i, Event.ocrCall l i ∉
      (processInvoice env cfg img true name modelName lang now).events) ∧
    (∀ inv, (processInvoice env cfg img true name modelName lang now).outcome =
        .ok inv → inv.rawText = "") ∧
    (∀ processed, env.preprocess (cfg.ocrEngine == "easyocr") img = .ok processed →
      ∀ p prompt image, Event.providerCall p prompt image ∈
          (processInvoice env cfg img true name modelName lang now).events →
        image = "data:image/jpeg;base64," ++ base64EncodeString processed) := by
  unfold processInvoice
  cases hp : env.preprocess (cfg.ocrEngine == "easyocr") img with
  | error e =>
    simp only [hp]
    refine ⟨fun l i hmem => by simp at hmem, fun inv h => Except.noConfusion h, ?_⟩
    intro processed hproc
    exact Except.noConfusion hproc
  | ok processed =>
    simp only [hp]
    refine ⟨?_, ?_, ?_⟩
    · intro l i hmem
      rcases runExtraction_events env cfg ""
          ("data:image/jpeg;base64," ++ base64EncodeString processed) name modelName
          now [Event.preprocessCall (cfg.ocrEngine == "easyocr") img] 0 with hE | ⟨p, hE⟩ <;>
        rw [hE] at hmem <;> simp at hmem
    · intro inv h
      exact runExtraction_ok_rawText h
    · intro processed' hproc p prompt image hmem
      obtain rfl := Except.ok.inj hproc
      rcases runExtraction_events env cfg ""
          ("data:image/jpeg;base64," ++ base64EncodeString processed) name modelName
          now [Event.preprocessCall (cfg.ocrEngine == "easyocr") img] 0 with hE | ⟨p', hE⟩ <;>
        rw [hE] at hmem <;> simp at hmem
      exact hmem.2.2

/-- C8 (witness): the vision-bypass theorem at a concrete request; the
provider receives the data-URI of the preprocessed bytes [7] and the
recognizer is never called. -/
theorem c8_vision_bypass_witness :
    Event.ocrCall "eng" [7] ∉
      (processInvoice env0 cfg0 [7] true "openai" "" "eng" GoTime.zero).events ∧
    (⟨"", GoTime.zero, GoDecimal.zero, GoDecimal.zero, [], [], "",
        defaultConfidence, GoTime.zero⟩ : Invoice).rawText = "" ∧
    ("data:image/jpeg;base64,Bw==" : String) =
      "data:image/jpeg;base64," ++ base64EncodeString [7] := by
  have h := c8_vision_bypass env0 cfg0 [7] "openai" "" "eng" GoTime.zero
  refine ⟨h.1 "eng" [7], h.2.1 _ (by decide), ?_⟩
  exact h.2.2 [7] rfl ⟨.openai, "k1", "", "gpt-4"⟩
    (buildPrompt cfg0.categories GoTime.zero.year "") "data:image/jpeg;base64,Bw=="
    (by decide)

/-- C10: the vision flag is compared case-sensitively against the exact
string "true": any other form value (such as "True", "TRUE" or "1")
yields useVisionModel=false and the request takes the OCR path — the
Text Recognizer is invoked on the preprocessed image. -/
theorem c10_vision_flag_exact_match (env : PipelineEnv) (cfg : Config)
    (r : HttpRequest) (now : GoTime) (hs : r.useVisionModelField ≠ "true") :
    ((r.useVisionModelField == "true") = false) ∧
    (∀ processed, r.formValid = true → r.filePresent = true → r.fileReadable = true →
      env.preprocess (cfg.ocrEngine == "easyocr") r.fileBytes = .ok processed →
      Event.ocrCall (resolvedLanguage cfg r) processed ∈
        (handleProcessInvoice env cfg r now).2) := by
  have hb : (r.useVisionModelField == "true") = false := beq_eq_false_iff_ne.mpr hs
  refine ⟨hb, ?_⟩
  intro processed h1 h2 h3 hp
  unfold handleProcessInvoice
  rw [if_neg (by rw [h1]; exact Bool.noConfusion),
      if_neg (by rw [h2]; exact Bool.noConfusion),
      if_neg (by rw [h3]; exact Bool.noConfusion)]
  dsimp only
  have hev : Event.ocrCall (resolvedLanguage cfg r) processed ∈
      (requestPipeline env cfg r now).events := by
    unfold requestPipeline processInvoice
    rw [hb]
    simp only [hp]
    cases hr : env.recognize (resolvedLanguage cfg r) processed with
    | error e => simp [hr]
    | ok td =>
      simp only [hr]
      cases td with
      | mk text dur =>
        dsimp only
        rcases runExtraction_events env cfg text "" (resolvedProvider cfg r)
            r.modelField now
            ([Event.preprocessCall (cfg.ocrEngine == "easyocr") r.fileBytes] ++
             [Event.ocrCall (resolvedLanguage cfg r) processed]) dur with hE | ⟨p, hE⟩ <;>
          rw [hE] <;> simp
  cases ho : (requestPipeline env cfg r now).outcome with
  | error e => exact hev
  | ok inv => exact hev

/-- C10 (witness): the form value "True" (capital T) takes the OCR path. -/
theorem c10_vision_flag_witness :
    (("True" : String) == "true") = false ∧
    Event.ocrCall "eng" [4] ∈
      (handleProcessInvoice env0 cfg0 ⟨true, true, true, [4], "True", "gemini", "", ""⟩
        GoTime.zero).2 := by
  have h := c10_vision_flag_exact_match env0 cfg0
    ⟨true, true, true, [4], "True", "gemini", "", ""⟩ GoTime.zero (by decide)
  exact ⟨h.1, h.2 [4] rfl rfl rfl rfl⟩

end InvoiceOCR
